import Mathlib

/-!
# Shallow embedding of `json-versioned` (src/src/index.ts)

The library wraps a payload in an envelope `{ version, data }`, registers
migration transforms keyed by source version, and on deserialization walks the
registry from the stored version up to the codec's current version, applying
each transform in order.

Versions are JavaScript numbers used as integers; they are modelled as `Int`.
The registry is a JavaScript `Map<number, MigrationFn>`; it is modelled as an
association list with `Map.set` semantics (overwrite in place, keys unique)
and `Map.get` semantics (lookup).  Thrown `Error`s become an `Except` error
type whose constructors carry exactly the data interpolated into the source's
error messages.

Per the specification, the concrete wire encoding (`JSON.stringify` /
`JSON.parse`) is an external collaborator treated abstractly: the envelope
level works directly with `VersionedData` records.  A separate JavaScript
value model (`Js`) covers the decode boundary, where the source performs no
shape validation after `JSON.parse`.
-/

namespace JsonVersioned

/-- JavaScript `Map.set` on an integer-keyed association list: if the key is
present its value is replaced in place, otherwise the pair is appended. -/
def mapSet {α : Type} : List (Int × α) → Int → α → List (Int × α)
  | [], k, v => [(k, v)]
  | (k', v') :: rest, k, v =>
      if k' = k then (k, v) :: rest else (k', v') :: mapSet rest k v

/-- JavaScript `Map.get`: the value stored at the key, if any. -/
def mapGet {α : Type} : List (Int × α) → Int → Option α
  | [], _ => none
  | (k', v') :: rest, k => if k' = k then some v' else mapGet rest k

/-- The errors thrown by the library, one constructor per `throw new Error`
site, carrying the data interpolated into the message. -/
inductive VError where
  /-- `Invalid migration: ${from}->${to} must be less than current version ${_version}` -/
  | invalidMigrationRange (fromV toV cur : Int)
  /-- `Cannot deserialize data from version ${parsed.version} with current version ${_version}` -/
  | futureVersion (stored cur : Int)
  /-- `Missing migration for version ${version}` -/
  | missingMigration (v : Int)
deriving DecidableEq, Repr

/-- The envelope: `VersionedData<T> = { version: number; data: T }`. -/
structure VersionedData (α : Type) where
  version : Int
  data : α
deriving DecidableEq, Repr

/-- The closure state of `createVersioned`: the mutable `_version` and the
migration registry `_migrations : Map<number, MigrationFn>`. -/
structure Codec (α : Type) where
  version : Int
  migrations : List (Int × (α → α))

/-- One decorator-declared migration: `MigrationMetadata = { toVersion, transform }`. -/
structure MigrationMetadata (α : Type) where
  toVersion : Int
  transform : α → α

/-- `createVersioned(version, target?)`.  `_version = version || 1` (JavaScript
falsiness: `0` becomes `1`); when a decorated `target` is supplied, each
decorator-declared migration is copied into the registry at key
`toVersion - 1` with no validation. -/
def createVersioned {α : Type} (version : Int)
    (target : Option (List (MigrationMetadata α))) : Codec α :=
  let ver : Int := if version = 0 then 1 else version
  let migs : List (Int × (α → α)) :=
    match target with
    | none => []
    | some metas =>
        metas.foldl (fun m meta => mapSet m (meta.toVersion - 1) meta.transform) []
  ⟨ver, migs⟩

/-- `migrations.toVersion(to).withTransform(fn)`: computes `from = to - 1`,
throws `InvalidMigrationRange` when
`from >= _version || to > _version || from < 1 || to < 1`, otherwise stores
`fn` at key `from`. -/
def withTransform {α : Type} (c : Codec α) (toV : Int) (fn : α → α) :
    Except VError (Codec α) :=
  let fromV := toV - 1
  if fromV ≥ c.version ∨ toV > c.version ∨ fromV < 1 ∨ toV < 1 then
    .error (.invalidMigrationRange fromV toV c.version)
  else
    .ok { c with migrations := mapSet c.migrations fromV fn }

/-- `addMigration(toVersion, migrationFn)` forwards to
`this.migrations.toVersion(toVersion).withTransform(migrationFn)` — despite
the interface declaring its first parameter `fromVersion`. -/
def addMigration {α : Type} (c : Codec α) (toVersion : Int) (fn : α → α) :
    Except VError (Codec α) :=
  withTransform c toVersion fn

/-- `setCurrentVersion(version)`: overwrites `_version` with no validation. -/
def setCurrentVersion {α : Type} (c : Codec α) (v : Int) : Codec α :=
  { c with version := v }

/-- `versionedSerialize(data)`: wraps the payload with the current version.
The outer `JSON.stringify` is the abstracted wire encoding. -/
def versionedSerialize {α : Type} (c : Codec α) (d : α) : VersionedData α :=
  ⟨c.version, d⟩

/-- The body of the `for (let version = toVersion; version < _version; version++)`
loop of `_applyMigrations`, with the iteration count
`(_version - toVersion).toNat` made explicit: the condition `version < _version`
holds exactly while iterations remain.  Each step looks up the transform at
`version`, throws `MissingMigration(version)` if absent, and otherwise replaces
the working payload with `migration(currentData)`. -/
def applyLoop {α : Type} (ms : List (Int × (α → α))) : α → Int → Nat → Except VError α
  | d, _, 0 => .ok d
  | d, v, Nat.succ n =>
      match mapGet ms v with
      | none => .error (.missingMigration v)
      | some f => applyLoop ms (f d) (v + 1) n

/-- `_applyMigrations(data, toVersion)`: the forward walk from `toVersion`
(the stored version) up to `_version`. -/
def _applyMigrations {α : Type} (c : Codec α) (d : α) (toVersion : Int) :
    Except VError α :=
  applyLoop c.migrations d toVersion (c.version - toVersion).toNat

/-- `versionedDeserialize` after the envelope has been decoded: throws
`FutureVersion` when `parsed.version > _version`, returns `parsed.data`
unchanged when `parsed.version === _version`, and otherwise replays the
migration chain. -/
def versionedDeserialize {α : Type} (c : Codec α) (e : VersionedData α) :
    Except VError α :=
  if e.version > c.version then .error (.futureVersion e.version c.version)
  else if e.version = c.version then .ok e.data
  else _applyMigrations c e.data e.version

/-! ## The decode boundary: JavaScript value model

`versionedDeserialize` begins with
`const parsed: VersionedData<T> = JSON.parse(json)`.  The TypeScript cast
performs no runtime check: `parsed` is whatever JSON document the string
contained, of any shape.  To settle claims about the decode boundary we model
parsed JSON documents (`Js`), JavaScript property access, and the number
coercions JavaScript performs in the comparisons of `versionedDeserialize`.
JSON numbers are modelled as integers (the versions the library manipulates
are integers); numeric coercion of single-element arrays is modelled for
numeric contents only, which is exact on every value reachable in the claims.
`JSON.parse` itself is the abstracted external wire codec: deserialization
takes its result as an `Option Js`, `none` standing for a string it rejects
with a thrown `SyntaxError` (the `DecodeError` of the specification). -/

/-- A parsed JSON document. -/
inductive Js where
  | null
  | bool (b : Bool)
  | num (n : Int)
  | str (s : String)
  | arr (elems : List Js)
  | obj (fields : List (String × Js))

/-- A JavaScript value: a JSON document or `undefined` (`none`). -/
abbrev JsV := Option Js

/-- Property access `p[k]` on a non-null document: the object field when
present, otherwise `undefined`.  (Access on `null` throws a `TypeError`;
`versionedDeserializeJs` handles that case before calling this.) -/
def jsGetF : Js → String → JsV
  | .obj fields, k => fields.lookup k
  | _, _ => none

/-- JavaScript `ToNumber` on the values compared in `versionedDeserialize`
(`none` result = `NaN`): `undefined → NaN`, `null → 0`, booleans `→ 0/1`,
numbers unchanged, strings trimmed then read as an integer (empty `→ 0`,
unreadable `→ NaN`), `[] → 0`, `[n] → n` for numeric `n` (via
`Number(String(n))`), other arrays and objects `→ NaN`. -/
def jsToNum : JsV → Option Int
  | none => none
  | some .null => some 0
  | some (.bool b) => some (if b then 1 else 0)
  | some (.num n) => some n
  | some (.str s) =>
      let t := s.trim
      if t = "" then some 0 else t.toInt?
  | some (.arr []) => some 0
  | some (.arr [.num n]) => some n
  | some (.arr _) => none
  | some (.obj _) => none

/-- `x > n` for a JavaScript value `x` and a number `n`: numeric comparison
after coercion; any comparison with `NaN` is `false`. -/
def jsGtNum (x : JsV) (n : Int) : Bool :=
  match jsToNum x with
  | some m => m > n
  | none => false

/-- `x < n`, as in the loop condition `version < _version`. -/
def jsLtNum (x : JsV) (n : Int) : Bool :=
  match jsToNum x with
  | some m => m < n
  | none => false

/-- Strict equality `x === n` against a number: no coercion, only a number
with the same value compares equal. -/
def jsStrictEqNum : JsV → Int → Bool
  | some (.num m), n => m = n
  | _, _ => false

/-- The errors observable through the decode boundary. -/
inductive JsError where
  /-- `SyntaxError` thrown by `JSON.parse` on unparseable input. -/
  | decodeError
  /-- `TypeError` thrown by property access on a `null` document. -/
  | typeError
  /-- `Cannot deserialize data from version ... with current version ...`. -/
  | futureVersionJs (stored : JsV) (cur : Int)
  /-- `Missing migration for version ...`, carrying the loop variable. -/
  | missingMigrationJs (v : JsV)

/-- The migration loop at the JavaScript level, once the loop variable is the
number `v` (iteration count `(_version - v).toNat`, as in `applyLoop`):
`Map.get` compares keys with SameValueZero, so a numeric loop variable is
looked up among the numeric keys directly. -/
def applyLoopJs (ms : List (Int × (JsV → JsV))) : JsV → Int → Nat → Except JsError JsV
  | d, _, 0 => .ok d
  | d, v, Nat.succ n =>
      match mapGet ms v with
      | none => .error (.missingMigrationJs (some (.num v)))
      | some f => applyLoopJs ms (f d) (v + 1) n

/-- `_applyMigrations(parsed.data, parsed.version)` with the raw
`parsed.version` as initial loop variable.  A numeric value runs the integer
walk.  A non-numeric value whose coercion satisfies `version < _version`
enters the loop body once, where `_migrations.get(version)` misses (every
registered key is a number and `Map.get` uses SameValueZero), throwing
`MissingMigration` with that value; otherwise the loop body never runs and
the data is returned unchanged. -/
def _applyMigrationsJs (c : Codec JsV) (d : JsV) (v0 : JsV) : Except JsError JsV :=
  match v0 with
  | some (.num v) => applyLoopJs c.migrations d v (c.version - v).toNat
  | other =>
      if jsLtNum other c.version then .error (.missingMigrationJs other)
      else .ok d

/-- `versionedDeserialize` on a successfully parsed document of arbitrary
shape: property access on `null` throws `TypeError`; otherwise
`parsed.version` is read (possibly `undefined`), compared against `_version`
with coercing `>` and strict `===`, and the fast path or the migration walk
runs.  No shape validation of any kind is performed. -/
def versionedDeserializeJs (c : Codec JsV) (parsed : Js) : Except JsError JsV :=
  match parsed with
  | .null => .error .typeError
  | p =>
      let pv := jsGetF p "version"
      if jsGtNum pv c.version then .error (.futureVersionJs pv c.version)
      else if jsStrictEqNum pv c.version then .ok (jsGetF p "data")
      else _applyMigrationsJs c (jsGetF p "data") pv

/-- `versionedDeserialize` from the wire: the input is the result of the
abstracted `JSON.parse`, `none` standing for a string it rejects. -/
def versionedDeserializeParsed (c : Codec JsV) (input : Option Js) :
    Except JsError JsV :=
  match input with
  | none => .error .decodeError
  | some p => versionedDeserializeJs c p

/-- Whether a deserialization outcome is the `DecodeError` of the
specification (an error thrown by `JSON.parse` itself). -/
def isDecodeErr {β : Type} : Except JsError β → Bool
  | .error .decodeError => true
  | _ => false

/-! ## Helper lemmas -/

/-- Reading a `Map` after `Map.set`: the stored value at the written key,
the previous content elsewhere. -/
theorem mapGet_mapSet {α : Type} (m : List (Int × α)) (k k' : Int) (v : α) :
    mapGet (mapSet m k v) k' = if k' = k then some v else mapGet m k' := by
  induction m with
  | nil =>
      simp only [mapSet, mapGet]
      split_ifs <;> first | rfl | (exfalso; omega)
  | cons kv rest ih =>
      obtain ⟨k₀, v₀⟩ := kv
      simp only [mapSet]
      by_cases h0 : k₀ = k
      · subst h0
        simp only [if_pos rfl, mapGet]
        split_ifs <;> first | rfl | (exfalso; omega)
      · rw [if_neg h0]
        simp only [mapGet, ih]
        split_ifs <;> first | rfl | (exfalso; omega)

/-- Writing the same key twice: the second `Map.set` wins and the first
leaves no trace. -/
theorem mapSet_mapSet_self {α : Type} (m : List (Int × α)) (k : Int) (v₁ v₂ : α) :
    mapSet (mapSet m k v₁) k v₂ = mapSet m k v₂ := by
  induction m with
  | nil => simp [mapSet]
  | cons kv rest ih =>
      obtain ⟨k₀, v₀⟩ := kv
      simp only [mapSet]
      by_cases h0 : k₀ = k
      · subst h0; simp [mapSet]
      · rw [if_neg h0]
        simp only [mapSet, if_neg h0, ih]

/-- The fast path of `versionedDeserialize`: at the current version the data
comes back unchanged. -/
theorem deserialize_current {α : Type} (c : Codec α) (e : VersionedData α)
    (h : e.version = c.version) : versionedDeserialize c e = .ok e.data := by
  unfold versionedDeserialize
  rw [if_neg (by omega), if_pos h]

/-- The migration walk fails with `MissingMigration` at the first version
whose lookup misses: if every version in `[v, v0)` has a transform and `v0`
has none, the loop started at `v` with `(V - v)` iterations left stops at
`v0`. -/
theorem applyLoop_first_gap {α : Type} (ms : List (Int × (α → α))) (V v0 : Int)
    (hgap : mapGet ms v0 = none) (n : Nat) :
    ∀ (d : α) (v : Int), v ≤ v0 → v0 < V → (n : Int) = V - v →
      (∀ k, v ≤ k → k < v0 → (mapGet ms k).isSome) →
      applyLoop ms d v n = .error (.missingMigration v0) := by
  induction n with
  | zero =>
      intro d v h1 h2 hn _
      exfalso; omega
  | succ n ih =>
      intro d v h1 h2 hn hbef
      rcases eq_or_lt_of_le h1 with heq | hlt
      · subst heq
        simp only [applyLoop, hgap]
      · have hsome := hbef v le_rfl hlt
        rcases hm : mapGet ms v with _ | f
        · rw [hm] at hsome; simp at hsome
        · simp only [applyLoop, hm]
          exact ih (f d) (v + 1) (by omega) h2 (by omega)
            (fun k hk1 hk2 => hbef k (by omega) hk2)

/-- The integer migration walk never produces the parse error. -/
theorem isDecodeErr_applyLoopJs (ms : List (Int × (JsV → JsV))) (n : Nat) :
    ∀ (d : JsV) (v : Int), isDecodeErr (applyLoopJs ms d v n) = false := by
  induction n with
  | zero => intro d v; rfl
  | succ n ih =>
      intro d v
      simp only [applyLoopJs]
      rcases h : mapGet ms v with _ | f
      · rfl
      · exact ih (f d) (v + 1)

/-- The migration walk from a raw loop variable never produces the parse
error. -/
theorem isDecodeErr_applyMigrationsJs (c : Codec JsV) (d v0 : JsV) :
    isDecodeErr (_applyMigrationsJs c d v0) = false := by
  unfold _applyMigrationsJs
  split
  · exact isDecodeErr_applyLoopJs c.migrations _ d _
  · split_ifs <;> rfl

/-! ## Claim theorems -/

/-- C1: with `currentVersion = 3` and transforms registered at `fromVersion 1`
(the `1→2` step, declared as `toVersion 2`) and at `fromVersion 2` (the `2→3`
step, declared as `toVersion 3`), deserializing an envelope with version 1
applies the `1→2` transform to the payload first and then the `2→3` transform
to its result — the composition `g ∘ f` for arbitrary `f` and `g`, so no other
order or combination can produce this value — and returns the second
transform's result. -/
theorem c1_sequential_application {α : Type} (f g : α → α) (p : α) :
    (do
      let c1 ← withTransform (createVersioned (α := α) 3 none) 2 f
      let c2 ← withTransform c1 3 g
      versionedDeserialize c2 ⟨1, p⟩) = .ok (g (f p)) := rfl

/-- C2: if some version in `[storedVersion, currentVersion)` has no registered
transform, deserialization fails with `MissingMigration` at the smallest such
version `v0` (every version before it has a transform, `v0` does not).  The
result is this error for every registry content at versions `≥ v0` and every
payload, so no transform registered at or beyond the gap contributes to the
outcome. -/
theorem c2_missing_migration_first_gap {α : Type} (c : Codec α)
    (e : VersionedData α) (v0 : Int) (h1 : e.version ≤ v0) (h2 : v0 < c.version)
    (hgap : mapGet c.migrations v0 = none)
    (hbefore : ∀ k, e.version ≤ k → k < v0 → (mapGet c.migrations k).isSome) :
    versionedDeserialize c e = .error (.missingMigration v0) := by
  unfold versionedDeserialize
  rw [if_neg (by omega), if_neg (by omega)]
  exact applyLoop_first_gap c.migrations c.version v0 hgap _ e.data e.version
    h1 h2 (by omega) hbefore

/-- Witness for C2, the concrete scenario of the claim: `currentVersion = 3`,
only the `2→3` transform registered, an envelope with version 1 fails with
`MissingMigration(1)`. -/
theorem c2_missing_migration_first_gap_witness :
    versionedDeserialize (Codec.mk 3 (mapSet [] 2 (fun n : Nat => n + 100)))
      ⟨1, (5 : Nat)⟩ = .error (.missingMigration 1) :=
  c2_missing_migration_first_gap _ _ 1 (by norm_num) (by norm_num) rfl
    (by intro k hk1 hk2; exact absurd (hk1.trans_lt hk2) (by norm_num))

/-- C3: any envelope whose stored version exceeds the current version is
rejected with `FutureVersion`, whatever the registry holds. -/
theorem c3_future_version {α : Type} (c : Codec α) (e : VersionedData α)
    (h : e.version > c.version) :
    versionedDeserialize c e = .error (.futureVersion e.version c.version) := by
  unfold versionedDeserialize
  rw [if_pos h]

/-- Witness for C3: version 5 against `currentVersion = 3`, with a transform
registered, fails with `FutureVersion`. -/
theorem c3_future_version_witness :
    versionedDeserialize (Codec.mk 3 (mapSet [] 2 (fun n : Nat => n + 1)))
      ⟨5, (0 : Nat)⟩ = .error (.futureVersion 5 3) :=
  c3_future_version _ _ (by norm_num)

/-- C5: an envelope already at the current version deserializes to its data
unchanged, for every registry content — in particular with transforms
registered, none contributes to the result. -/
theorem c5_fast_path {α : Type} (c : Codec α) (e : VersionedData α)
    (h : e.version = c.version) : versionedDeserialize c e = .ok e.data :=
  deserialize_current c e h

/-- Witness for C5: current version 3, a transform registered at source
version 2, an envelope with version 3 comes back unchanged. -/
theorem c5_fast_path_witness :
    versionedDeserialize (Codec.mk 3 (mapSet [] 2 (fun n : Nat => n + 1)))
      ⟨3, (7 : Nat)⟩ = .ok 7 :=
  c5_fast_path _ _ rfl

/-- C6: serializing a payload and deserializing the result on the same codec
is the identity — the envelope carries the current version, so the fast path
returns the payload with no transform applied. -/
theorem c6_round_trip {α : Type} (c : Codec α) (p : α) :
    versionedDeserialize c (versionedSerialize c p) = .ok p :=
  deserialize_current c _ rfl

/-- C7: registration through `migrations.toVersion(fromVersion + 1)
.withTransform(...)` fails with `InvalidMigrationRange` exactly when
`fromVersion < 1`, `fromVersion ≥ V`, `fromVersion + 1 < 1` or
`fromVersion + 1 > V`, and otherwise succeeds, storing the transform at
`fromVersion`; a failing call returns only the error, leaving the registry
as it was.  Concretely, with `V = 3`: `fromVersion = 3` and `fromVersion = 0`
fail, `fromVersion = 2` succeeds. -/
theorem c7_registration_bounds {α : Type} (c : Codec α) (f : Int) (fn : α → α) :
    (withTransform c (f + 1) fn
        = .error (.invalidMigrationRange f (f + 1) c.version)
      ↔ (f < 1 ∨ f ≥ c.version ∨ f + 1 < 1 ∨ f + 1 > c.version))
    ∧ (withTransform c (f + 1) fn
        = .ok { c with migrations := mapSet c.migrations f fn }
      ↔ (1 ≤ f ∧ f < c.version))
    ∧ withTransform (createVersioned (α := α) 3 none) 4 fn
        = .error (.invalidMigrationRange 3 4 3)
    ∧ withTransform (createVersioned (α := α) 3 none) 1 fn
        = .error (.invalidMigrationRange 0 1 3)
    ∧ withTransform (createVersioned (α := α) 3 none) 3 fn
        = .ok ⟨3, [(2, fn)]⟩ := by
  have harith : f + 1 - 1 = f := by ring
  have hmain : withTransform c (f + 1) fn =
      if f ≥ c.version ∨ f + 1 > c.version ∨ f < 1 ∨ f + 1 < 1 then
        Except.error (VError.invalidMigrationRange f (f + 1) c.version)
      else Except.ok { c with migrations := mapSet c.migrations f fn } := by
    simp only [withTransform, harith]
  refine ⟨?_, ?_, rfl, rfl, rfl⟩
  · rw [hmain]
    by_cases hcond : f ≥ c.version ∨ f + 1 > c.version ∨ f < 1 ∨ f + 1 < 1
    · rw [if_pos hcond]
      exact iff_of_true rfl (by omega)
    · rw [if_neg hcond]
      exact iff_of_false (by simp) (by omega)
  · rw [hmain]
    by_cases hcond : f ≥ c.version ∨ f + 1 > c.version ∨ f < 1 ∨ f + 1 < 1
    · rw [if_pos hcond]
      exact iff_of_false (by simp) (by omega)
    · rw [if_neg hcond]
      exact iff_of_true rfl (by omega)

/-- C8: registering `fn₁` then `fn₂` at the same valid `fromVersion` yields
the same codec as registering `fn₂` alone — the registry holds `fn₂` at
`fromVersion` (last write wins) and is untouched at every other key, so any
subsequent deserialization walking through `fromVersion` applies `fn₂` and
never `fn₁`. -/
theorem c8_last_write_wins {α : Type} (c : Codec α) (f : Int) (fn₁ fn₂ : α → α)
    (h1 : 1 ≤ f) (h2 : f < c.version) :
    ∃ c₁ c₂, withTransform c (f + 1) fn₁ = .ok c₁ ∧
      withTransform c₁ (f + 1) fn₂ = .ok c₂ ∧
      withTransform c (f + 1) fn₂ = .ok c₂ ∧
      (∀ k, mapGet c₂.migrations k
        = if k = f then some fn₂ else mapGet c.migrations k) := by
  have harith : f + 1 - 1 = f := by ring
  have hok : ∀ (c' : Codec α) (fn : α → α), c'.version = c.version →
      withTransform c' (f + 1) fn
        = .ok { c' with migrations := mapSet c'.migrations f fn } := by
    intro c' fn hv
    simp only [withTransform, harith]
    rw [if_neg (by omega)]
  refine ⟨{ c with migrations := mapSet c.migrations f fn₁ },
          { c with migrations := mapSet c.migrations f fn₂ },
          hok c fn₁ rfl, ?_, hok c fn₂ rfl, ?_⟩
  · rw [hok { c with migrations := mapSet c.migrations f fn₁ } fn₂ rfl]
    rw [mapSet_mapSet_self]
  · intro k
    exact mapGet_mapSet c.migrations f k fn₂

/-- Witness for C8: on a fresh codec with current version 3, registering two
transforms at `fromVersion 2` keeps only the second. -/
theorem c8_last_write_wins_witness :
    ∃ c₁ c₂, withTransform (Codec.mk 3 ([] : List (Int × (Nat → Nat)))) (2 + 1)
        (fun n => n + 1) = .ok c₁ ∧
      withTransform c₁ (2 + 1) (fun n => n * 2) = .ok c₂ ∧
      withTransform (Codec.mk 3 ([] : List (Int × (Nat → Nat)))) (2 + 1)
        (fun n => n * 2) = .ok c₂ ∧
      (∀ k, mapGet c₂.migrations k = if k = 2 then some (fun n => n * 2)
        else mapGet (Codec.mk 3 ([] : List (Int × (Nat → Nat)))).migrations k) :=
  c8_last_write_wins _ 2 _ _ (by decide) (by decide)

/-- C9: `addMigration(n, fn)` forwards its first argument unchanged to
`migrations.toVersion(n).withTransform(fn)`, so despite the interface naming
that parameter `fromVersion` it is treated as the target version and the
transform is stored at key `n - 1`; `addMigration(1, fn)` therefore always
fails with `InvalidMigrationRange`, and `addMigration(V, fn)` with current
version `V ≥ 2` succeeds and registers the transform at source version
`V - 1`. -/
theorem c9_addMigration_uses_target_version {α : Type} (c : Codec α) (n : Int)
    (fn : α → α) (h : 2 ≤ c.version) :
    addMigration c n fn = withTransform c n fn
    ∧ addMigration c 1 fn = .error (.invalidMigrationRange 0 1 c.version)
    ∧ ∃ c', addMigration c c.version fn = .ok c' ∧
        mapGet c'.migrations (c.version - 1) = some fn := by
  refine ⟨rfl, ?_, ?_⟩
  · show withTransform c 1 fn = _
    simp only [withTransform]
    rw [if_pos (by omega)]
    norm_num
  · refine ⟨{ c with migrations := mapSet c.migrations (c.version - 1) fn }, ?_, ?_⟩
    · show withTransform c c.version fn = _
      simp only [withTransform]
      rw [if_neg (by omega)]
    · rw [mapGet_mapSet]
      simp

/-- Witness for C9: current version 3; `addMigration(7, fn)` equals the
builder call, `addMigration(1, fn)` fails, `addMigration(3, fn)` stores the
transform at source version 2. -/
theorem c9_addMigration_uses_target_version_witness :
    addMigration (Codec.mk 3 ([] : List (Int × (Nat → Nat)))) 7 (fun n => n)
        = withTransform (Codec.mk 3 ([] : List (Int × (Nat → Nat)))) 7 (fun n => n)
    ∧ addMigration (Codec.mk 3 ([] : List (Int × (Nat → Nat)))) 1 (fun n => n)
        = .error (.invalidMigrationRange 0 1 3)
    ∧ ∃ c', addMigration (Codec.mk 3 ([] : List (Int × (Nat → Nat)))) 3 (fun n => n)
          = .ok c' ∧
        mapGet c'.migrations 2 = some (fun n => n) :=
  c9_addMigration_uses_target_version _ 7 _ (by decide)

/-- C10: `createVersioned` copies every decorator-declared migration into the
registry at key `toVersion - 1` with no range validation — for every current
version `v` and declared `toVersion` `t` the transform lands at `t - 1`,
including `t > v` (key `4` against `v = 3`) and `t ≤ 1` (key `-1`), which the
builder path rejects with `InvalidMigrationRange` for the same versions. -/
theorem c10_decorator_migrations_unvalidated {α : Type} (v t : Int)
    (fn g : α → α) :
    mapGet (createVersioned v (some [⟨t, fn⟩])).migrations (t - 1) = some fn
    ∧ (createVersioned (α := α) 3 (some [⟨5, g⟩])).migrations = [(4, g)]
    ∧ (createVersioned (α := α) 3 (some [⟨0, g⟩])).migrations = [(-1, g)]
    ∧ withTransform (createVersioned (α := α) 3 none) 5 g
        = .error (.invalidMigrationRange 4 5 3)
    ∧ withTransform (createVersioned (α := α) 3 none) 0 g
        = .error (.invalidMigrationRange (-1) 0 3) := by
  refine ⟨?_, rfl, rfl, rfl, rfl⟩
  simp [createVersioned, mapSet, mapGet]

/-- C4 (counterexample): a parseable document that is not a record with
exactly the two fields `version` and `data` — it carries a third field
`extra` — deserializes successfully instead of failing with `DecodeError`:
the envelope `{"version": 1, "data": 5, "extra": true}` against current
version 1 returns the data. -/
theorem c4_decode_error_counterexample :
    versionedDeserializeParsed (Codec.mk 1 [])
      (some (.obj [("version", .num 1), ("data", .num 5), ("extra", .bool true)]))
      = .ok (some (.num 5)) := rfl

/-- C4 (amended): deserialization fails with `DecodeError` exactly when
`JSON.parse` rejects the input; a successfully parsed document is never
validated against the two-field envelope shape, so no parseable input — of
any shape — produces `DecodeError`. -/
theorem c4_decode_error_only_parse (c : Codec JsV) (input : Option Js) :
    isDecodeErr (versionedDeserializeParsed c input) = input.isNone := by
  cases input with
  | none => rfl
  | some p =>
      show isDecodeErr (versionedDeserializeJs c p) = false
      unfold versionedDeserializeJs
      split
      · rfl
      · dsimp only
        split_ifs <;> first | rfl | exact isDecodeErr_applyMigrationsJs c _ _

end JsonVersioned
